import Mathlib

/-!
Verification of the natural-language specification of SIPPM.py (Screening
Tool - Societal Impact in Pure Press Mentions) against a shallow embedding
of its core logic: the paginated retrying fetch loop `get_clippings`, the
word-boundary keyword matcher `match_impact_keywords`, the field extractors
`extract_text_from_field` / `extract_description`, the scoring loop of the
search handler, and the filter loop of the result view.

Modelling conventions:
- Python strings are `String` / `List Char`; Python string comparison
  (`>=` on date strings) is the code-point lexicographic order `pyLt`.
- HTTP traffic is a script: each page has a function from attempt index to
  the outcome of that attempt (network exception, or a status with items).
- Fallible Python code (possible uncaught exceptions such as IndexError)
  is modelled with `Option`: `none` means the Python code raises.
- `re.IGNORECASE` case folding and the `\w` class of `\b` are modelled at
  ASCII granularity (`Char.toLower`, `Char.isAlphanum`/underscore), which
  coincides with Python on the ASCII inputs used throughout.
- BeautifulSoup's `get_text()` (an external library call) is modelled as
  removal of `<...>` tag spans, per the spec's words "strip HTML markup";
  no claim depends on finer details of HTML stripping.
-/

namespace SIPPM

/-- Code-point lexicographic strict order on char lists: Python `a < b`
for strings. -/
def pyLt : List Char → List Char → Bool
  | [], [] => false
  | [], _ :: _ => true
  | _ :: _, [] => false
  | a :: as, b :: bs =>
    if a.toNat < b.toNat then true
    else if a.toNat = b.toNat then pyLt as bs
    else false

/-- A press-clipping item as the fetch loop sees it: only `info.createdDate`
is consumed there (`item.get("info", \x7b\x7d).get("createdDate", "")`). -/
structure Item where
  createdDate : String
deriving DecidableEq

/-- Outcome of one HTTP attempt on a page: a network-level exception
(`requests.exceptions.RequestException`) or a response with a status code
and the `items` array of its JSON body. -/
inductive Attempt where
  | netError : Attempt
  | response : Nat → List Item → Attempt
deriving DecidableEq

/-- The scripted transport for one page: attempt index to outcome. -/
abbrev PageScript := Nat → Attempt

/-- Outcome of the inner `for attempt in range(max_retries)` block of
`get_clippings`: break with a (necessarily non-500) response, abort on a
network exception, or fall through the for-else after three 500s. -/
inductive BlockResult where
  | ok : Nat → List Item → BlockResult
  | netAbort : BlockResult
  | maxedOut : BlockResult
deriving DecidableEq

/-- The retry block, lines 61-75 of SIPPM.py: up to `fuel` attempts starting
at attempt index `i`; a 500 sleeps 2 seconds and retries, anything else
breaks out. Returns (result, attempts made, total seconds slept). -/
def retryAux (script : PageScript) : Nat → Nat → BlockResult × Nat × Nat
  | _, 0 => (.maxedOut, 0, 0)
  | i, fuel + 1 =>
    match script i with
    | .netError => (.netAbort, 1, 0)
    | .response s items =>
      if s = 500 then
        let r := retryAux script (i + 1) fuel
        (r.1, r.2.1 + 1, r.2.2 + 2)
      else (.ok s items, 1, 0)

/-- The retry block with the code's `max_retries = 3`. -/
def retryBlock (script : PageScript) : BlockResult × Nat × Nat :=
  retryAux script 0 3

/-- How a fetch ended (which `st.error`/termination path was taken). -/
inductive FetchNote where
  | completed : FetchNote
  | unauthorized : FetchNote
  | retriesExhausted : FetchNote
  | netFailure : FetchNote
  | serverErrorNote : FetchNote
  | apiError : Nat → FetchNote
deriving DecidableEq

/-- What `get_clippings` returns, together with the error path taken. -/
structure FetchResult where
  note : FetchNote
  items : List Item
deriving DecidableEq

/-- A page whose every attempt succeeds with status 200 and these items. -/
def okPage (items : List Item) : PageScript := fun _ => .response 200 items

/-- `item.get("info", \x7b\x7d).get("createdDate", "")[:10]` — the first ten
characters of the creation timestamp. -/
def dateKey (it : Item) : List Char := it.createdDate.data.take 10

/-- The code's `created_date >= start_date` on Python strings. -/
def inRange (cutoff : String) (it : Item) : Bool :=
  !(pyLt (dateKey it) cutoff.data)

/-- The inner `for item in items` loop of `get_clippings`: collect items
while in range; on the first out-of-range item stop, dropping it and the
rest of the page. Second component: whether the cutoff return was taken. -/
def takeInRange (cutoff : String) : List Item → List Item × Bool
  | [] => ([], false)
  | it :: rest =>
    if pyLt (dateKey it) cutoff.data then ([], true)
    else
      let r := takeInRange cutoff rest
      (it :: r.1, r.2)

/-- The `while True` page loop of `get_clippings`, over a finite script of
per-page transports (the provider is modelled as answering an empty 200
page once the script is exhausted, which ends the loop exactly like the
code's `if not items: break`). `acc` is the running `results` list. -/
def fetchPages (cutoff : String) : List PageScript → List Item → FetchResult
  | [], acc => ⟨.completed, acc⟩
  | p :: rest, acc =>
    match (retryBlock p).1 with
    | .netAbort => ⟨.netFailure, acc⟩
    | .maxedOut => ⟨.retriesExhausted, acc⟩
    | .ok status items =>
      if status = 401 then ⟨.unauthorized, []⟩
      else if status = 500 then ⟨.serverErrorNote, acc⟩
      else if status ≠ 200 then ⟨.apiError status, []⟩
      else if items = [] then ⟨.completed, acc⟩
      else
        let t := takeInRange cutoff items
        if t.2 then ⟨.completed, acc ++ t.1⟩
        else fetchPages cutoff rest (acc ++ t.1)

/-- `get_clippings(api_key, start_date)` with the HTTP transport scripted:
starts with `results = []` and runs the page loop. -/
def get_clippings (cutoff : String) (pages : List PageScript) : FetchResult :=
  fetchPages cutoff pages []

/-- The provider delivers items in descending creation-date order: every
earlier item's date key is not below any later item's date key. -/
@[reducible] def Descending (l : List Item) : Prop :=
  l.Pairwise (fun x y => pyLt (dateKey x) (dateKey y) = false)

/-- The word-character class of the regex `\b` boundary (`\w`), at ASCII
granularity: letters, digits and underscore. -/
def isWordChar (c : Char) : Bool := c.isAlphanum || c == '_'

/-- Whether position `i` of the text holds a word character; positions
outside the text count as non-word (string edges are boundaries). -/
def wordAt (hay : List Char) (i : Nat) : Bool :=
  match hay.get? i with
  | some c => isWordChar c
  | none => false

/-- The regex `\b` assertion at position `i`: exactly one of the adjacent
positions holds a word character. -/
def boundary (hay : List Char) (i : Nat) : Bool :=
  ((decide (i ≠ 0)) && wordAt hay (i - 1)) != wordAt hay i

/-- Case-insensitive (ASCII fold) literal match of the pattern against an
initial segment of the text. -/
def ciStarts : List Char → List Char → Bool
  | [], _ => true
  | _ :: _, [] => false
  | a :: as, b :: bs => (a.toLower == b.toLower) && ciStarts as bs

/-- `re.search(rf"\b\x7bre.escape(word)\x7d\b", text, re.IGNORECASE)` is not
None: some position of the text starts a case-insensitive occurrence of the
escaped (hence literal) keyword with `\b` boundaries on both sides. -/
def boundSearch (w t : String) : Bool :=
  (List.range (t.data.length + 1)).any fun i =>
    ciStarts w.data (t.data.drop i) && boundary t.data i &&
      boundary t.data (i + w.data.length)

/-- `match_impact_keywords(text, keywords)`, lines 109-114: the keywords
whose boundary-aware case-insensitive search hits, in keyword-list order. -/
def match_impact_keywords (text : String) : List String → List String
  | [] => []
  | w :: ws =>
    if boundSearch w text then w :: match_impact_keywords text ws
    else match_impact_keywords text ws

/-- Modelled from the spec's matcher contract: the keyword occurs in the
text as a case-insensitive whole-word or whole-phrase token bounded by word
boundaries — there is a split of the text at which a case-insensitive copy
of the keyword begins, with a word boundary at both ends of that copy. -/
def SpecWholeWord (w t : String) : Prop :=
  ∃ pre rest : List Char,
    t.data = pre ++ rest ∧
    w.data.length ≤ rest.length ∧
    (rest.take w.data.length).map Char.toLower = w.data.map Char.toLower ∧
    boundary t.data pre.length = true ∧
    boundary t.data (pre.length + w.data.length) = true

/-- One entry of a multi-locale text field: `\x7b"locale": ..., "value": ...\x7d`,
either key possibly absent. -/
structure TextEntry where
  locale : Option String
  value : Option String
deriving DecidableEq

/-- A formatted text field: `\x7b"text": [...]\x7d`. `text := none` models the
"text" key being absent (the code then substitutes `[\x7b\x7d]`); it also stands
for the whole field being absent or falsy where an `Option TextField` wraps
it. For a description entry the same shape models
`d.get("value", \x7b\x7d).get("text", [])` with `none` collapsing to `[]`. -/
structure TextField where
  text : Option (List TextEntry)
deriving DecidableEq

/-- `extract_text_from_field(field)`, line 125-126:
`field.get("text", [\x7b\x7d])[0].get("value", "") if field else ""`.
`none` as result models the Python `IndexError` raised when the field is
present and its "text" key holds an empty list: `[...][0]` on `[]`. -/
def extract_text_from_field : Option TextField → Option String
  | none => some ""
  | some f =>
    match f.text with
    | none => some ""
    | some [] => none
    | some (e :: _) => some (e.value.getD "")

/-- The inner `for t in d.get("value", \x7b\x7d).get("text", [])` scan: the value
of the first entry whose locale is exactly "da_DK". -/
def firstDa : List TextEntry → Option String
  | [] => none
  | t :: ts => if t.locale == some "da_DK" then some (t.value.getD "") else firstDa ts

/-- BeautifulSoup's `get_text()` modelled as removal of `<...>` tag spans
(the spec's "strip HTML markup"); the flag records being inside a tag. -/
def stripHtmlAux : Bool → List Char → List Char
  | _, [] => []
  | true, c :: cs => if c = '>' then stripHtmlAux false cs else stripHtmlAux true cs
  | false, c :: cs => if c = '<' then stripHtmlAux true cs else c :: stripHtmlAux false cs

/-- HTML stripping of a string's characters. -/
def stripHtml (s : String) : List Char := stripHtmlAux false s.data

/-- The fixed provider boilerplate marker the description is truncated at. -/
def infomediaMarker : List Char := "(Resumé leveret af Infomedia)".data

/-- Python `full_text.split(marker)[0]`: everything before the first
occurrence of the marker (the whole text when the marker is absent). -/
def splitBefore (marker : List Char) : List Char → List Char
  | [] => []
  | c :: cs => if marker.isPrefixOf (c :: cs) then [] else c :: splitBefore marker cs

/-- Python `.strip()`: drop whitespace from both ends. -/
def trimChars (l : List Char) : List Char :=
  ((l.dropWhile Char.isWhitespace).reverse.dropWhile Char.isWhitespace).reverse

/-- The processing applied to the matched locale text: strip HTML, truncate
at the boilerplate marker, trim whitespace. -/
def processDescValue (v : String) : String :=
  ⟨trimChars (splitBefore infomediaMarker (stripHtml v))⟩

/-- `extract_description(item)`, lines 116-123: scan the descriptions; the
first "da_DK"-tagged text entry is stripped, truncated and trimmed; empty
string when no description carries the locale. -/
def extract_description : List TextField → String
  | [] => ""
  | d :: ds =>
    match firstDa (d.text.getD []) with
    | some v => processDescValue v
    | none => extract_description ds

/-- A related project or research output: only `name` (a formatted text
field) and `uuid` are consumed. -/
structure RelatedEntity where
  name : Option TextField
  uuid : String
deriving DecidableEq

/-- A reference entry: only the truthiness of `pureId` is consumed
(`some 0` and `none` are falsy, like Python). -/
structure Reference where
  pureId : Option Nat
deriving DecidableEq

/-- The fields of a raw clipping consumed by the analysis loop. -/
structure RawClipping where
  uuid : String
  title : Option TextField
  descriptions : List TextField
  relatedProjects : List RelatedEntity
  relatedResearchOutputs : List RelatedEntity
  references : List Reference
deriving DecidableEq

/-- One stored result: the dict appended to `export_data`, lines 205-215. -/
structure Record where
  uuid : String
  title : String
  url : String
  keywordsFound : String
  description : String
  impactScore : Nat
  referenceCount : Nat
  projects : String
  publications : String
deriving DecidableEq

/-- Python `", ".join(...)`. -/
def joinComma : List String → String
  | [] => ""
  | [s] => s
  | s :: rest => s ++ ", " ++ joinComma rest

/-- One markdown link of the projects/publications comprehension; `none`
when `extract_text_from_field` raises on the entity's name field. -/
def linkFor (base : String) (p : RelatedEntity) : Option String :=
  (extract_text_from_field p.name).map fun n =>
    "[" ++ n ++ "](" ++ base ++ p.uuid ++ ")"

/-- The title string the loop works with, given extraction succeeded. -/
def titleText (clip : RawClipping) : String :=
  (extract_text_from_field clip.title).getD ""

/-- One iteration of the `for clip in clippings` loop, lines 173-215.
Outer `none`: the iteration raises (title or a related-entity name field
with an empty text list). `some none`: the clipping matched no keyword and
was skipped by `continue`. `some (some r)`: the record appended. -/
def processClipping (keywords : List String) (clip : RawClipping) :
    Option (Option Record) :=
  match extract_text_from_field clip.title with
  | none => none
  | some title =>
    let description := extract_description clip.descriptions
    let km := match_impact_keywords (title ++ " " ++ description) keywords
    if km = [] then some none
    else
      match clip.relatedProjects.mapM (linkFor "https://vbn.aau.dk/da/projects/"),
            clip.relatedResearchOutputs.mapM (linkFor "https://vbn.aau.dk/da/publications/") with
      | some pls, some qls =>
        some (some
          { uuid := clip.uuid
            title := title
            url := "https://vbn.aau.dk/da/clippings/" ++ clip.uuid
            keywordsFound := joinComma km
            description := description
            impactScore :=
              (if match_impact_keywords title keywords = [] then 0 else 1) +
              (if match_impact_keywords description keywords = [] then 0 else 1) +
              (if clip.relatedProjects = [] ∧ clip.relatedResearchOutputs = [] then 0 else 1)
            referenceCount :=
              (clip.references.filter (fun r => r.pureId.getD 0 ≠ 0)).length
            projects := joinComma pls
            publications := joinComma qls })
      | _, _ => none

/-- The whole analysis loop: the `export_data` list that is stored into the
session result set, or `none` when some iteration raises (in which case the
assignment to the session state is never reached). -/
def processClippings (keywords : List String) : List RawClipping → Option (List Record)
  | [] => some []
  | c :: cs =>
    match processClipping keywords c with
    | none => none
    | some none => processClippings keywords cs
    | some (some r) => (processClippings keywords cs).map fun rs => r :: rs

/-- Python `s.lower()` on the characters of a string (ASCII fold). -/
def lowerData (s : String) : List Char := s.data.map Char.toLower

/-- Python substring membership `needle in hay`. -/
def containsSub (needle hay : List Char) : Bool :=
  (List.range (hay.length + 1)).any fun i => needle.isPrefixOf (hay.drop i)

/-- The display filter loop, lines 235-243: skip when a required relation
list is empty or when the (already stripped and lowercased) keyword filter
is non-empty and not a substring of the lowercased matched-keywords cell. -/
def filterLoop (onlyP onlyQ : Bool) (kf : List Char) : List Record → List Record
  | [] => []
  | r :: rs =>
    if onlyP && r.projects == "" then filterLoop onlyP onlyQ kf rs
    else if onlyQ && r.publications == "" then filterLoop onlyP onlyQ kf rs
    else if !kf.isEmpty && !(containsSub kf (lowerData r.keywordsFound)) then
      filterLoop onlyP onlyQ kf rs
    else r :: filterLoop onlyP onlyQ kf rs

/-- The filter pipeline as the page wires it: the free-text filter input is
stripped and lowercased (line 230) before the loop runs. -/
def filterResults (rs : List Record) (onlyP onlyQ : Bool) (kfRaw : String) :
    List Record :=
  filterLoop onlyP onlyQ ((trimChars kfRaw.data).map Char.toLower) rs

/-- Items and pages used to instantiate the fetch theorems. -/
def itemMay3 : Item := ⟨"2024-05-03T10:00:00.000+0200"⟩

def itemMay2 : Item := ⟨"2024-05-02T09:00:00.000+0200"⟩

def itemMay1 : Item := ⟨"2024-05-01T08:00:00.000+0200"⟩

def pagesMay : List (List Item) := [[itemMay3, itemMay2], [itemMay1]]

/-- The spec's §8 scenario clipping: title "Ny klimaforskning", a "da_DK"
description with no keyword, no relations. -/
def scenarioClip : RawClipping :=
  { uuid := "u-scenario"
    title := some ⟨some [⟨some "da_DK", some "Ny klimaforskning"⟩]⟩
    descriptions := [⟨some [⟨some "da_DK", some "ingen yderligere info"⟩]⟩]
    relatedProjects := []
    relatedResearchOutputs := []
    references := [] }

/-- The scenario with the title repaired so that "klima" occurs as a whole
word. -/
def scenarioClipFixed : RawClipping :=
  { uuid := "u-scenario"
    title := some ⟨some [⟨some "da_DK", some "Ny forskning i klima"⟩]⟩
    descriptions := [⟨some [⟨some "da_DK", some "ingen yderligere info"⟩]⟩]
    relatedProjects := []
    relatedResearchOutputs := []
    references := [] }

/-- The record the analysis loop produces for `scenarioClipFixed`. -/
def scenarioRecordFixed : Record :=
  { uuid := "u-scenario"
    title := "Ny forskning i klima"
    url := "https://vbn.aau.dk/da/clippings/u-scenario"
    keywordsFound := "klima"
    description := "ingen yderligere info"
    impactScore := 1
    referenceCount := 0
    projects := ""
    publications := "" }

/-- A clipping on which the multi-word keyword "klima nu" matches only
across the junction of title and description in the concatenated text
`title ++ " " ++ description`. -/
def crossClip : RawClipping :=
  { uuid := "u-cross"
    title := some ⟨some [⟨some "da_DK", some "vi elsker klima"⟩]⟩
    descriptions := [⟨some [⟨some "da_DK", some "nu sker det"⟩]⟩]
    relatedProjects := []
    relatedResearchOutputs := []
    references := [] }

/-- The record the analysis loop stores for `crossClip`: matched keywords
non-empty, impact score 0. -/
def crossRecord : Record :=
  { uuid := "u-cross"
    title := "vi elsker klima"
    url := "https://vbn.aau.dk/da/clippings/u-cross"
    keywordsFound := "klima nu"
    description := "nu sker det"
    impactScore := 0
    referenceCount := 0
    projects := ""
    publications := "" }

/-- The per-record pass condition of the display filter loop. -/
def passesFilters (p q : Bool) (kf : List Char) (r : Record) : Bool :=
  (!(p && r.projects == "")) && (!(q && r.publications == "")) &&
    (!(!kf.isEmpty && !(containsSub kf (lowerData r.keywordsFound))))

/-- From `b < c` and `¬ (b < a)` (so `a ≤ b`) conclude `a < c`. -/
theorem pyLt_trans_of_not_lt : ∀ (b a c : List Char),
    pyLt b c = true → pyLt b a = false → pyLt a c = true := by
  intro b
  induction b with
  | nil =>
    intro a c hbc hba
    cases c with
    | nil => simp [pyLt] at hbc
    | cons y ys =>
      cases a with
      | nil => simp [pyLt]
      | cons z zs => simp [pyLt] at hba
  | cons x xs ih =>
    intro a c hbc hba
    cases c with
    | nil => simp [pyLt] at hbc
    | cons y ys =>
      cases a with
      | nil => simp [pyLt]
      | cons z zs =>
        simp only [pyLt] at hbc hba ⊢
        by_cases hxy : x.toNat < y.toNat
        · by_cases hxz : x.toNat < z.toNat
          · simp [hxz] at hba
          · by_cases hzy : z.toNat < y.toNat
            · simp [hzy]
            · omega
        · simp only [hxy, if_false] at hbc
          by_cases hxy2 : x.toNat = y.toNat
          · simp only [hxy2, if_true] at hbc
            by_cases hxz : x.toNat < z.toNat
            · simp [hxz] at hba
            · simp only [hxz, if_false] at hba
              by_cases hzy : z.toNat < y.toNat
              · simp [hzy]
              · have hzy2 : z.toNat = y.toNat := by omega
                have hxz2 : x.toNat = z.toNat := by omega
                rw [if_neg hzy, if_pos hzy2]
                rw [if_pos hxz2] at hba
                exact ih zs ys hbc hba
          · simp [hxy2] at hbc

theorem takeWhile_eq_self_of_all {α : Type} (p : α → Bool) :
    ∀ l : List α, l.all p = true → l.takeWhile p = l := by
  intro l
  induction l with
  | nil => intro _; rfl
  | cons a l ih =>
    intro h
    simp only [List.all_cons, Bool.and_eq_true] at h
    simp [List.takeWhile_cons, h.1, ih h.2]

theorem takeWhile_append_of_all {α : Type} (p : α → Bool) :
    ∀ l m : List α, l.all p = true →
      (l ++ m).takeWhile p = l ++ m.takeWhile p := by
  intro l
  induction l with
  | nil => intro m _; rfl
  | cons a l ih =>
    intro m h
    simp only [List.all_cons, Bool.and_eq_true] at h
    simp [List.takeWhile_cons, h.1, ih m h.2]

theorem takeWhile_append_of_not_all {α : Type} (p : α → Bool) :
    ∀ l m : List α, l.all p = false →
      (l ++ m).takeWhile p = l.takeWhile p := by
  intro l
  induction l with
  | nil => intro m h; simp [List.all_nil] at h
  | cons a l ih =>
    intro m h
    simp only [List.all_cons, Bool.and_eq_false_iff] at h
    by_cases ha : p a
    · have hl : l.all p = false := by
        rcases h with h | h
        · rw [ha] at h; cases h
        · exact h
      simp [List.takeWhile_cons, ha, ih m hl]
    · simp [List.takeWhile_cons, Bool.eq_false_iff.mpr ha]

/-- The inner item loop computes a takeWhile, and the stop flag records
whether some item of the page was out of range. -/
theorem takeInRange_eq (cutoff : String) :
    ∀ l : List Item,
      takeInRange cutoff l =
        (l.takeWhile (inRange cutoff), !(l.all (inRange cutoff))) := by
  intro l
  induction l with
  | nil => rfl
  | cons it rest ih =>
    by_cases h : pyLt (dateKey it) cutoff.data
    · have hr : inRange cutoff it = false := by
        simp [inRange, h]
      simp [takeInRange, h, List.takeWhile_cons, hr]
    · have hb : pyLt (dateKey it) cutoff.data = false := Bool.eq_false_iff.mpr h
      have hr : inRange cutoff it = true := by
        simp [inRange, hb]
      simp [takeInRange, hb, List.takeWhile_cons, hr, ih]

/-- On a list that is sorted by descending date, cutting at the first
out-of-range item collects exactly the in-range items. -/
theorem takeWhile_eq_filter_of_descending (cutoff : String) :
    ∀ l : List Item, Descending l →
      l.takeWhile (inRange cutoff) = l.filter (inRange cutoff) := by
  intro l
  induction l with
  | nil => intro _; rfl
  | cons x xs ih =>
    intro hd
    rw [Descending, List.pairwise_cons] at hd
    by_cases hx : inRange cutoff x
    · simp [List.takeWhile_cons, hx, List.filter_cons, ih hd.2]
    · have hx' : pyLt (dateKey x) cutoff.data = true := by
        simp only [inRange, Bool.not_eq_true'] at hx
        simpa using hx
      have hnil : xs.filter (inRange cutoff) = [] := by
        rw [List.filter_eq_nil_iff]
        intro y hy
        have hxy := hd.1 y hy
        have : pyLt (dateKey y) cutoff.data = true :=
          pyLt_trans_of_not_lt (dateKey x) (dateKey y) cutoff.data hx' hxy
        simp [inRange, this]
      simp [List.takeWhile_cons, Bool.eq_false_iff.mpr hx, List.filter_cons,
        Bool.eq_false_iff.mpr hx, hnil]

/-- One fully successful in-order page of the loop. -/
theorem retryBlock_okPage (items : List Item) :
    retryBlock (okPage items) = (.ok 200 items, 1, 0) := rfl

/-- Running the page loop over error-free pages appends the takeWhile of
the concatenated stream to the accumulator. -/
theorem fetchPages_okPages (cutoff : String) :
    ∀ (pages : List (List Item)) (acc : List Item),
      (∀ p ∈ pages, p ≠ []) →
      fetchPages cutoff (pages.map okPage) acc =
        ⟨.completed, acc ++ (pages.flatten).takeWhile (inRange cutoff)⟩ := by
  intro pages
  induction pages with
  | nil => intro acc _; simp [fetchPages]
  | cons p ps ih =>
    intro acc hne
    have hp : p ≠ [] := hne p (List.mem_cons_self p ps)
    have hps : ∀ q ∈ ps, q ≠ [] := fun q hq => hne q (List.mem_cons_of_mem p hq)
    simp only [List.map_cons, fetchPages, retryBlock_okPage]
    rw [takeInRange_eq]
    by_cases hall : p.all (inRange cutoff)
    · simp only [hall, Bool.not_true]
      rw [if_neg (by norm_num : ¬ (200 : Nat) = 401)]
      rw [if_neg (by norm_num : ¬ (200 : Nat) = 500)]
      rw [if_neg (by simp : ¬ ((200 : Nat) ≠ 200))]
      rw [if_neg hp]
      rw [if_neg (by simp : ¬ (false = true))]
      rw [takeWhile_eq_self_of_all _ p hall]
      rw [ih (acc ++ p) hps]
      rw [show (p :: ps).flatten = p ++ ps.flatten from rfl]
      rw [takeWhile_append_of_all _ p _ hall]
      simp [List.append_assoc]
    · have hall' : p.all (inRange cutoff) = false := Bool.eq_false_iff.mpr hall
      simp only [hall', Bool.not_false]
      rw [if_neg (by norm_num : ¬ (200 : Nat) = 401)]
      rw [if_neg (by norm_num : ¬ (200 : Nat) = 500)]
      rw [if_neg (by simp : ¬ ((200 : Nat) ≠ 200))]
      rw [if_neg hp]
      rw [if_pos trivial]
      rw [show (p :: ps).flatten = p ++ ps.flatten from rfl]
      rw [takeWhile_append_of_not_all _ p _ hall']

/-- Error-free pages whose items are all in range are consumed whole and
the loop moves on to the remaining page scripts. -/
theorem fetchPages_skip_okPages (cutoff : String) :
    ∀ (P : List (List Item)) (rest : List PageScript) (acc : List Item),
      (∀ p ∈ P, p ≠ []) →
      (∀ p ∈ P, p.all (inRange cutoff) = true) →
      fetchPages cutoff (P.map okPage ++ rest) acc =
        fetchPages cutoff rest (acc ++ P.flatten) := by
  intro P
  induction P with
  | nil => intro rest acc _ _; simp
  | cons p ps ih =>
    intro rest acc hne hall
    have hp : p ≠ [] := hne p (List.mem_cons_self p ps)
    have hpall : p.all (inRange cutoff) = true := hall p (List.mem_cons_self p ps)
    have hps : ∀ q ∈ ps, q ≠ [] := fun q hq => hne q (List.mem_cons_of_mem p hq)
    have hpsall : ∀ q ∈ ps, q.all (inRange cutoff) = true :=
      fun q hq => hall q (List.mem_cons_of_mem p hq)
    simp only [List.map_cons, List.cons_append, fetchPages, retryBlock_okPage]
    rw [takeInRange_eq]
    simp only [hpall, Bool.not_true]
    rw [if_neg (by norm_num : ¬ (200 : Nat) = 401)]
    rw [if_neg (by norm_num : ¬ (200 : Nat) = 500)]
    rw [if_neg (by simp : ¬ ((200 : Nat) ≠ 200))]
    rw [if_neg hp]
    rw [if_neg (by simp : ¬ (false = true))]
    rw [takeWhile_eq_self_of_all _ p hpall]
    simp only [List.append_eq]
    rw [ih rest (acc ++ p) hps hpsall]
    rw [show (p :: ps).flatten = p ++ ps.flatten from rfl]
    rw [List.append_assoc]

/-- Claim C4: for an error-free provider delivering non-empty pages of
items in descending creation-date order, `get_clippings` returns exactly
the prefix of items with creation date at least the cutoff, stopping at the
first strictly older item and excluding it and everything after it; and a
page with zero items terminates the fetch, returning all items collected
from the earlier pages. -/
theorem c4_pagination_cutoff :
    (∀ (pages : List (List Item)) (cutoff : String),
      (∀ p ∈ pages, p ≠ []) →
      Descending pages.flatten →
      get_clippings cutoff (pages.map okPage) =
        ⟨.completed, pages.flatten.filter (inRange cutoff)⟩)
    ∧ (∀ (P : List (List Item)) (rest : List PageScript) (cutoff : String),
      (∀ p ∈ P, p ≠ []) →
      (∀ p ∈ P, p.all (inRange cutoff) = true) →
      get_clippings cutoff (P.map okPage ++ okPage [] :: rest) =
        ⟨.completed, P.flatten⟩) := by
  constructor
  · intro pages cutoff hne hdesc
    simp only [get_clippings]
    rw [fetchPages_okPages cutoff pages [] hne]
    rw [takeWhile_eq_filter_of_descending cutoff _ hdesc]
    simp
  · intro P rest cutoff hne hall
    simp only [get_clippings]
    rw [fetchPages_skip_okPages cutoff P _ [] hne hall]
    simp only [List.nil_append, fetchPages, retryBlock_okPage]
    rw [if_neg (by norm_num : ¬ (200 : Nat) = 401)]
    rw [if_neg (by norm_num : ¬ (200 : Nat) = 500)]
    rw [if_neg (by simp : ¬ ((200 : Nat) ≠ 200))]
    rw [if_pos trivial]

theorem c4_pagination_cutoff_witness :
    (∀ p ∈ pagesMay, p ≠ []) ∧
    Descending pagesMay.flatten ∧
    get_clippings "2024-05-02" (pagesMay.map okPage) =
      ⟨.completed, pagesMay.flatten.filter (inRange "2024-05-02")⟩ :=
  ⟨by decide, by decide,
    c4_pagination_cutoff.1 pagesMay "2024-05-02" (by decide) (by decide)⟩

/-- Refutation of claim C2 as stated: a 503 — a server-side 5xx status — is
not retried (a single attempt is made, not the fixed bound of 3) and the
fetch returns the empty list, discarding the in-range item already
collected from the first page, instead of returning partial results. -/
theorem c2_counterexample_503 :
    get_clippings "2024-01-01" [okPage [itemMay2], fun _ => Attempt.response 503 []] =
      ⟨.apiError 503, []⟩
    ∧ (retryBlock (fun _ => Attempt.response 503 [])).2.1 = 1 := by
  constructor
  · decide
  · decide

/-- Claim C2 amended: only HTTP 500 is retried. On repeated 500s the fetch
retries the same page up to 3 attempts and, after exhausting the retries,
returns the items already collected from earlier pages; any other 5xx
status is not retried — the fetch aborts after a single attempt on that
page and returns an empty sequence. -/
theorem c2_amended_only_500_retried :
    (∀ (P : List (List Item)) (rest : List PageScript) (cutoff : String)
        (its : List Item),
      (∀ p ∈ P, p ≠ []) →
      (∀ p ∈ P, p.all (inRange cutoff) = true) →
      get_clippings cutoff
          (P.map okPage ++ (fun _ => Attempt.response 500 its) :: rest) =
        ⟨.retriesExhausted, P.flatten⟩
      ∧ (retryBlock (fun _ => Attempt.response 500 its)).2.1 = 3)
    ∧ (∀ (P : List (List Item)) (rest : List PageScript) (cutoff : String)
        (its : List Item) (s : Nat),
      (∀ p ∈ P, p ≠ []) →
      (∀ p ∈ P, p.all (inRange cutoff) = true) →
      500 < s → s ≤ 599 →
      get_clippings cutoff
          (P.map okPage ++ (fun _ => Attempt.response s its) :: rest) =
        ⟨.apiError s, []⟩
      ∧ (retryBlock (fun _ => Attempt.response s its)).2.1 = 1) := by
  constructor
  · intro P rest cutoff its hne hall
    refine ⟨?_, rfl⟩
    simp only [get_clippings]
    rw [fetchPages_skip_okPages cutoff P _ [] hne hall]
    simp only [List.nil_append]
    have hb : (retryBlock (fun _ => Attempt.response 500 its)).1 = .maxedOut := rfl
    simp only [fetchPages, hb]
  · intro P rest cutoff its s hne hall hlo hhi
    have hs500 : ¬ s = 500 := by omega
    have hb : retryBlock (fun _ => Attempt.response s its) = (.ok s its, 1, 0) := by
      simp [retryBlock, retryAux, hs500]
    refine ⟨?_, by rw [hb]⟩
    simp only [get_clippings]
    rw [fetchPages_skip_okPages cutoff P _ [] hne hall]
    simp only [List.nil_append, fetchPages, hb]
    rw [if_neg (by omega : ¬ s = 401)]
    rw [if_neg hs500]
    rw [if_pos (by omega : s ≠ 200)]

theorem c2_amended_witness :
    (∀ p ∈ pagesMay, p ≠ []) ∧
    (∀ p ∈ pagesMay, p.all (inRange "2024-05-01") = true) ∧
    (get_clippings "2024-05-01"
        (pagesMay.map okPage ++ (fun _ => Attempt.response 500 []) :: []) =
      ⟨.retriesExhausted, pagesMay.flatten⟩
    ∧ (retryBlock (fun _ => Attempt.response 500 [])).2.1 = 3) :=
  ⟨by decide, by decide,
    c2_amended_only_500_retried.1 pagesMay [] "2024-05-01" [] (by decide) (by decide)⟩

/-- Refutation of claim C3 as stated: on a non-retryable 404 the fetch
returns the empty list, not the item already collected from the first
page. -/
theorem c3_counterexample_404 :
    get_clippings "2024-01-01" [okPage [itemMay2], fun _ => Attempt.response 404 []] =
      ⟨.apiError 404, []⟩ := by
  decide

/-- Claim C3 amended: when a page request returns a non-retryable HTTP
error status (non-200, non-401, non-5xx), the fetch aborts and returns an
empty sequence — discarding the items collected from earlier pages — while
surfacing the error. -/
theorem c3_amended_abort_empty :
    ∀ (P : List (List Item)) (rest : List PageScript) (cutoff : String)
      (its : List Item) (s : Nat),
      (∀ p ∈ P, p ≠ []) →
      (∀ p ∈ P, p.all (inRange cutoff) = true) →
      s ≠ 200 → s ≠ 401 → (s < 500 ∨ 599 < s) →
      get_clippings cutoff
          (P.map okPage ++ (fun _ => Attempt.response s its) :: rest) =
        ⟨.apiError s, []⟩ := by
  intro P rest cutoff its s hne hall h200 h401 h5xx
  have hs500 : ¬ s = 500 := by omega
  have hb : retryBlock (fun _ => Attempt.response s its) = (.ok s its, 1, 0) := by
    simp [retryBlock, retryAux, hs500]
  simp only [get_clippings]
  rw [fetchPages_skip_okPages cutoff P _ [] hne hall]
  simp only [List.nil_append, fetchPages, hb]
  rw [if_neg h401]
  rw [if_neg hs500]
  rw [if_pos h200]

theorem c3_amended_witness :
    (∀ p ∈ pagesMay, p ≠ []) ∧
    (∀ p ∈ pagesMay, p.all (inRange "2024-05-01") = true) ∧
    get_clippings "2024-05-01"
        (pagesMay.map okPage ++ (fun _ => Attempt.response 404 []) :: []) =
      ⟨.apiError 404, []⟩ :=
  ⟨by decide, by decide,
    c3_amended_abort_empty pagesMay [] "2024-05-01" [] 404 (by decide) (by decide)
      (by decide) (by decide) (by omega)⟩

/-- Refutation of claim C5 as stated: on a page where every attempt yields
the server error 502, only one attempt is made before the fetch gives up
on retrying — not exactly 3. -/
theorem c5_counterexample_502 :
    retryBlock (fun _ => Attempt.response 502 []) = (.ok 502 [], 1, 0) := by
  decide

/-- Claim C5 amended: for a page on which every attempt yields HTTP 500
specifically, exactly 3 attempts are made before the fetch gives up, with a
fixed 2-second pause after each failed attempt (6 seconds slept in total,
so consecutive attempts are 2 seconds apart); as soon as an attempt yields
any non-500 status — success, or an error the loop does not retry — no
further attempts are made for that page: a non-500 response arriving on
attempt `k` (after `k` preceding 500s, for any `k < 3`) ends the block at
exactly `k + 1` attempts with `2 * k` seconds slept. -/
theorem c5_amended_retry_bound :
    (∀ script : PageScript,
      (∀ i, i < 3 → ∃ its, script i = Attempt.response 500 its) →
      retryBlock script = (.maxedOut, 3, 6))
    ∧ (∀ (script : PageScript) (k s : Nat) (its : List Item),
      k < 3 →
      (∀ i, i < k → ∃ its0, script i = Attempt.response 500 its0) →
      script k = Attempt.response s its → s ≠ 500 →
      retryBlock script = (.ok s its, k + 1, 2 * k)) := by
  constructor
  · intro script h
    obtain ⟨its0, h0⟩ := h 0 (by omega)
    obtain ⟨its1, h1⟩ := h 1 (by omega)
    obtain ⟨its2, h2⟩ := h 2 (by omega)
    simp [retryBlock, retryAux, h0, h1, h2]
  · intro script k s its hk h500 hks hs
    interval_cases k
    · simp [retryBlock, retryAux, hks, hs]
    · obtain ⟨a0, h0⟩ := h500 0 (by omega)
      simp [retryBlock, retryAux, h0, hks, hs]
    · obtain ⟨a0, h0⟩ := h500 0 (by omega)
      obtain ⟨a1, h1⟩ := h500 1 (by omega)
      simp [retryBlock, retryAux, h0, h1, hks, hs]

theorem c5_amended_witness :
    ((∀ i, i < 3 → ∃ its, (fun _ => Attempt.response 500 ([] : List Item)) i =
      Attempt.response 500 its) ∧
    retryBlock (fun _ => Attempt.response 500 ([] : List Item)) = (.maxedOut, 3, 6))
    ∧ ((1 : Nat) < 3 ∧
      (fun i => if i = 0 then Attempt.response 500 [] else Attempt.response 200 [itemMay1]) 1 =
        Attempt.response 200 [itemMay1] ∧
    retryBlock
        (fun i => if i = 0 then Attempt.response 500 [] else Attempt.response 200 [itemMay1]) =
      (.ok 200 [itemMay1], 2, 2)) :=
  ⟨⟨fun _ _ => ⟨[], rfl⟩,
    c5_amended_retry_bound.1 (fun _ => Attempt.response 500 []) (fun _ _ => ⟨[], rfl⟩)⟩,
   ⟨by omega, rfl,
    c5_amended_retry_bound.2
      (fun i => if i = 0 then Attempt.response 500 [] else Attempt.response 200 [itemMay1])
      1 200 [itemMay1] (by omega)
      (fun i hi => ⟨[], by
        have hi0 : i = 0 := by omega
        rw [hi0]
        rfl⟩)
      rfl (by omega)⟩⟩

/-- The case-insensitive initial-segment match, characterised. -/
theorem ciStarts_iff : ∀ (n h : List Char),
    ciStarts n h = true ↔
      n.length ≤ h.length ∧
        (h.take n.length).map Char.toLower = n.map Char.toLower := by
  intro n
  induction n with
  | nil => intro h; simp [ciStarts]
  | cons a as ih =>
    intro h
    cases h with
    | nil => simp [ciStarts]
    | cons b bs =>
      rw [show ciStarts (a :: as) (b :: bs) =
        ((a.toLower == b.toLower) && ciStarts as bs) from rfl]
      rw [Bool.and_eq_true, beq_iff_eq, ih bs]
      constructor
      · rintro ⟨hab, hlen, hmap⟩
        refine ⟨by simpa using Nat.succ_le_succ hlen, ?_⟩
        simp [List.take_succ_cons, hmap, hab]
      · rintro ⟨hlen, hmap⟩
        simp only [List.length_cons, List.take_succ_cons, List.map_cons,
          List.cons.injEq] at hlen hmap
        exact ⟨hmap.1.symm, Nat.succ_le_succ_iff.mp hlen, hmap.2⟩

/-- The code's boundary-aware search agrees with the spec's description of
whole-word containment. -/
theorem boundSearch_iff_spec : ∀ w t, boundSearch w t = true ↔ SpecWholeWord w t := by
  intro w t
  simp only [boundSearch, List.any_eq_true, List.mem_range, Bool.and_eq_true]
  constructor
  · rintro ⟨i, hi, ⟨hcs, hb1⟩, hb2⟩
    have hile : i ≤ t.data.length := by omega
    have hlen : (t.data.take i).length = i := by
      rw [List.length_take]; omega
    refine ⟨t.data.take i, t.data.drop i, (List.take_append_drop i t.data).symm,
      ?_, ?_, ?_, ?_⟩
    · exact ((ciStarts_iff w.data (t.data.drop i)).mp hcs).1
    · exact ((ciStarts_iff w.data (t.data.drop i)).mp hcs).2
    · rw [hlen]; exact hb1
    · rw [hlen]; exact hb2
  · rintro ⟨pre, rest, ht, hlen, hmap, hb1, hb2⟩
    refine ⟨pre.length, ?_, ⟨?_, hb1⟩, hb2⟩
    · have : t.data.length = pre.length + rest.length := by
        rw [ht, List.length_append]
      omega
    · have hdrop : t.data.drop pre.length = rest := by
        rw [ht, List.drop_left]
      rw [hdrop]
      exact (ciStarts_iff w.data rest).mpr ⟨hlen, hmap⟩

/-- Claim C6: `match_impact_keywords` returns, in keyword-list order,
exactly the keywords that occur in the text as a case-insensitive
whole-word or whole-phrase token bounded by word boundaries; in particular
keyword "vand" does not match the text "vandring", while "vi har vand her"
and "Vand" both match. -/
theorem c6_word_boundary_matching :
    (∀ (t : String) (ks : List String),
      match_impact_keywords t ks = ks.filter fun w => boundSearch w t)
    ∧ (∀ w t, boundSearch w t = true ↔ SpecWholeWord w t)
    ∧ match_impact_keywords "vandring" ["vand"] = []
    ∧ match_impact_keywords "vi har vand her" ["vand"] = ["vand"]
    ∧ match_impact_keywords "Vand" ["vand"] = ["vand"] := by
  refine ⟨?_, boundSearch_iff_spec, by decide, by decide, by decide⟩
  intro t ks
  induction ks with
  | nil => rfl
  | cons w ws ih =>
    by_cases h : boundSearch w t <;>
      simp [match_impact_keywords, List.filter_cons, h, ih]

/-- Refutation of claim C7's scenario as stated: with keywords
["klima", "sundhed"], the clipping titled "Ny klimaforskning" matches
nothing at all — "klima" occurs only inside the larger word
"klimaforskning" — so it is excluded from the result set rather than
stored with score 1 and matchedKeywords ["klima"]. -/
theorem c7_counterexample_scenario :
    processClippings ["klima", "sundhed"] [scenarioClip] = some []
    ∧ match_impact_keywords "Ny klimaforskning ingen yderligere info"
        ["klima", "sundhed"] = [] := by
  constructor
  · decide
  · decide

/-- Claim C7 amended: the impact score equals the sum of three independent
bits — +1 if the extracted title alone matches at least one keyword, +1 if
the extracted description alone matches at least one keyword, +1 if the
related-project list or related-output list is non-empty; the scenario
holds once its title actually contains "klima" as a whole word: with
keywords ["klima", "sundhed"], title "Ny forskning i klima", a description
with no keyword match and no relations, the stored record scores exactly 1
with matchedKeywords ["klima"]. -/
theorem c7_score_formula :
    (∀ (kw : List String) (clip : RawClipping) (r : Record),
      processClipping kw clip = some (some r) →
      r.impactScore =
        (if match_impact_keywords (titleText clip) kw = [] then 0 else 1) +
        (if match_impact_keywords (extract_description clip.descriptions) kw = []
          then 0 else 1) +
        (if clip.relatedProjects = [] ∧ clip.relatedResearchOutputs = []
          then 0 else 1))
    ∧ processClippings ["klima", "sundhed"] [scenarioClipFixed] =
        some [scenarioRecordFixed] := by
  constructor
  · intro kw clip r h
    cases ht : extract_text_from_field clip.title with
    | none => simp [processClipping, ht] at h
    | some title =>
      simp only [processClipping, ht] at h
      split at h
      · exact absurd h (by simp)
      · split at h
        · simp only [Option.some.injEq] at h
          rw [← h]
          simp [titleText, ht]
        · exact absurd h (by simp)
  · decide

theorem c7_score_formula_witness :
    processClipping ["klima", "sundhed"] scenarioClipFixed =
      some (some scenarioRecordFixed) ∧
    scenarioRecordFixed.impactScore =
      (if match_impact_keywords (titleText scenarioClipFixed)
          ["klima", "sundhed"] = [] then 0 else 1) +
      (if match_impact_keywords (extract_description scenarioClipFixed.descriptions)
          ["klima", "sundhed"] = [] then 0 else 1) +
      (if scenarioClipFixed.relatedProjects = [] ∧
          scenarioClipFixed.relatedResearchOutputs = [] then 0 else 1) :=
  ⟨by decide,
    c7_score_formula.1 ["klima", "sundhed"] scenarioClipFixed scenarioRecordFixed
      (by decide)⟩

/-- Claim C1's score bound is violated by the code: with keyword list
["klima nu"], a clipping titled "vi elsker klima" whose description is
"nu sker det" matches the keyword only across the title-description
junction, is stored in the result set (matchedKeywords non-empty, as the
claim's first half says), yet carries impactScore 0 — contradicting both
the claim and the app's own displayed documentation that every stored
clipping scores 1 to 3. -/
theorem c1_cross_boundary_score_zero :
    processClippings ["klima nu"] [crossClip] = some [crossRecord]
    ∧ crossRecord.keywordsFound = "klima nu"
    ∧ crossRecord.impactScore = 0 := by
  refine ⟨by decide, rfl, rfl⟩

/-- Claim C10: with an empty keyword set the matcher returns the empty
list on every text, and the analysis loop can only store an empty result
set — either some clipping makes an extractor raise (`none`, in which case
the session store is never assigned) or the completed search stores `[]`. -/
theorem c10_empty_keywords :
    (∀ t : String, match_impact_keywords t [] = [])
    ∧ (∀ clips : List RawClipping,
        processClippings [] clips = none ∨ processClippings [] clips = some []) := by
  constructor
  · intro t; rfl
  · intro clips
    induction clips with
    | nil => right; rfl
    | cons c cs ih =>
      cases ht : extract_text_from_field c.title with
      | none =>
        left
        simp [processClippings, processClipping, ht]
      | some title =>
        have hc : processClipping [] c = some none := by
          simp [processClipping, ht, match_impact_keywords]
        rcases ih with h | h
        · left
          simp [processClippings, hc, h]
        · right
          simp [processClippings, hc, h]

/-- The skip-or-append loop is the filter by the conjoined condition. -/
theorem filterLoop_eq_filter :
    ∀ (rs : List Record) (p q : Bool) (kf : List Char),
      filterLoop p q kf rs = rs.filter (passesFilters p q kf) := by
  intro rs p q kf
  induction rs with
  | nil => rfl
  | cons r rs ih =>
    by_cases h1 : (p && r.projects == "") = true
    · simp [filterLoop, List.filter_cons, passesFilters, h1, ih]
    · have h1' := Bool.eq_false_iff.mpr h1
      by_cases h2 : (q && r.publications == "") = true
      · simp [filterLoop, List.filter_cons, passesFilters, h1', h2, ih]
      · have h2' := Bool.eq_false_iff.mpr h2
        by_cases h3 : (!kf.isEmpty && !(containsSub kf (lowerData r.keywordsFound))) = true
        · simp [filterLoop, List.filter_cons, passesFilters, h1', h2', h3, ih]
        · have h3' := Bool.eq_false_iff.mpr h3
          simp [filterLoop, List.filter_cons, passesFilters, h1', h2', h3', ih]

/-- The pass condition, read as a conjunction of the active predicates. -/
theorem passesFilters_iff (p q : Bool) (kf : List Char) (r : Record) :
    passesFilters p q kf r = true ↔
      (p = true → r.projects ≠ "") ∧ (q = true → r.publications ≠ "") ∧
      (kf ≠ [] → containsSub kf (lowerData r.keywordsFound) = true) := by
  by_cases hA : r.projects = "" <;> by_cases hB : r.publications = "" <;>
    by_cases hE : kf = [] <;>
    by_cases hC : containsSub kf (lowerData r.keywordsFound) = true <;>
    cases p <;> cases q <;>
    simp [passesFilters, hA, hB, hE, hC, List.isEmpty_iff]

/-- Claim C8: a record passes the display filter iff it satisfies every
active predicate — non-empty projects cell when required, non-empty
publications cell when required, and the stripped lowercased keyword
filter, when non-empty, occurring as a substring of the lowercased
matched-keywords cell; and applying the filters in either order, or in one
combined pass, yields the same subsequence for any fixed input set. -/
theorem c8_filter_conjunction_and_order :
    (∀ (rs : List Record) (p q : Bool) (kfRaw : String) (r : Record),
      r ∈ filterResults rs p q kfRaw ↔
        r ∈ rs ∧
        (p = true → r.projects ≠ "") ∧
        (q = true → r.publications ≠ "") ∧
        ((trimChars kfRaw.data).map Char.toLower ≠ [] →
          containsSub ((trimChars kfRaw.data).map Char.toLower)
            (lowerData r.keywordsFound) = true))
    ∧ (∀ (rs : List Record) (kfRaw : String),
      filterResults (filterResults rs true false "") false false kfRaw =
        filterResults (filterResults rs false false kfRaw) true false ""
      ∧ filterResults (filterResults rs true false "") false false kfRaw =
        filterResults rs true false kfRaw) := by
  have hnil : ((trimChars ("" : String).data).map Char.toLower) = ([] : List Char) := rfl
  constructor
  · intro rs p q kfRaw r
    rw [filterResults, filterLoop_eq_filter, List.mem_filter, passesFilters_iff]
  · intro rs kfRaw
    simp only [filterResults, filterLoop_eq_filter, List.filter_filter, hnil]
    constructor
    · apply List.filter_congr
      intro r _
      cases hA : (r.projects == "") <;>
        cases hE : ((trimChars kfRaw.data).map Char.toLower).isEmpty <;>
        cases hC : containsSub ((trimChars kfRaw.data).map Char.toLower)
          (lowerData r.keywordsFound) <;>
        simp [passesFilters, hA, hE, hC]
    · apply List.filter_congr
      intro r _
      cases hA : (r.projects == "") <;>
        cases hE : ((trimChars kfRaw.data).map Char.toLower).isEmpty <;>
        cases hC : containsSub ((trimChars kfRaw.data).map Char.toLower)
          (lowerData r.keywordsFound) <;>
        simp [passesFilters, hA, hE, hC]

/-- If no entry of the scanned list carries the target locale, the scan
finds nothing. -/
theorem firstDa_eq_none :
    ∀ l : List TextEntry,
      (∀ t ∈ l, t.locale ≠ some "da_DK") → firstDa l = none := by
  intro l
  induction l with
  | nil => intro _; rfl
  | cons t ts ih =>
    intro h
    have ht : t.locale ≠ some "da_DK" := h t (List.mem_cons_self t ts)
    have : (t.locale == some "da_DK") = false := by
      simpa using ht
    simp only [firstDa, this]
    exact ih fun u hu => h u (List.mem_cons_of_mem t hu)

/-- Refutation of claim C9 as stated: `extract_text_from_field` is not
total — on a field that is present and carries an explicitly empty "text"
list, `field.get("text", [...])[0]` raises IndexError, modelled here as
`none`. -/
theorem c9_counterexample_empty_text_list :
    extract_text_from_field (some ⟨some []⟩) = none := rfl

/-- Claim C9 amended: `extract_text_from_field` returns the first text
entry's value, or the empty string when the field or its "text" key is
absent, and fails (raises) exactly when the field is present with an
explicitly empty text list; `extract_description` is total — it returns
the stripped, truncated, trimmed text of the first "da_DK" entry and the
empty string when no description carries that locale. -/
theorem c9_extractors_amended :
    (∀ f : Option TextField,
      extract_text_from_field f = none ↔ ∃ tf, f = some tf ∧ tf.text = some [])
    ∧ (∀ (tf : TextField) (e : TextEntry) (es : List TextEntry),
      tf.text = some (e :: es) →
      extract_text_from_field (some tf) = some (e.value.getD ""))
    ∧ extract_text_from_field none = some ""
    ∧ (∀ tf : TextField, tf.text = none →
      extract_text_from_field (some tf) = some "")
    ∧ (∀ ds : List TextField,
      (∀ d ∈ ds, ∀ t ∈ d.text.getD [], t.locale ≠ some "da_DK") →
      extract_description ds = "")
    ∧ (∀ (d : TextField) (ds : List TextField) (v : String),
      firstDa (d.text.getD []) = some v →
      extract_description (d :: ds) = processDescValue v) := by
  refine ⟨?_, ?_, rfl, ?_, ?_, ?_⟩
  · intro f
    cases f with
    | none => simp [extract_text_from_field]
    | some tf =>
      cases htf : tf.text with
      | none => simp [extract_text_from_field, htf]
      | some l =>
        cases l with
        | nil =>
          simp only [extract_text_from_field, htf]
          exact ⟨fun _ => ⟨tf, rfl, htf⟩, fun _ => trivial⟩
        | cons e es =>
          simp only [extract_text_from_field, htf]
          constructor
          · intro h
            cases h
          · rintro ⟨tf2, heq, htext⟩
            cases heq
            rw [htf] at htext
            cases htext
  · intro tf e es h
    simp [extract_text_from_field, h]
  · intro tf h
    simp [extract_text_from_field, h]
  · intro ds h
    induction ds with
    | nil => rfl
    | cons d rest ih =>
      have hd : firstDa (d.text.getD []) = none :=
        firstDa_eq_none _ (h d (List.mem_cons_self d rest))
      simp only [extract_description, hd]
      exact ih fun u hu => h u (List.mem_cons_of_mem d hu)
  · intro d ds v h
    simp [extract_description, h]

theorem c9_extractors_amended_witness :
    (⟨some [⟨some "da_DK", some "hej"⟩]⟩ : TextField).text =
      some [⟨some "da_DK", some "hej"⟩] ∧
    extract_text_from_field (some ⟨some [⟨some "da_DK", some "hej"⟩]⟩) =
      some "hej" :=
  ⟨rfl, c9_extractors_amended.2.1 ⟨some [⟨some "da_DK", some "hej"⟩]⟩
    ⟨some "da_DK", some "hej"⟩ [] rfl⟩

end SIPPM
